import Mathlib

/-!
Verification of the two utilities in this repository:

* `src/ensembl_transcript_to_amino_acid_sequence.py` — a serverless HTTP
  handler (`make_inference`) that maps a batch of Ensembl transcript
  identifiers to optional amino-acid sequences via one HTTP GET per
  non-empty identifier (`convert_transcript_id_to_amino_acid_sequence`).
* `src/load_rsem_results_into_bq.py` — a command-line loader whose
  observable behaviour of interest here is the one-line job summary it
  prints and its argparse `--verbose` flag handling.

The HTTP transport is modelled as an oracle `HttpRequest → Except ε
HttpResponse`: an `.error` value stands for an exception raised by
`requests.get` (DNS/connection/timeout faults), and `.ok r` for a
delivered response.  The `requests` library's `Response.ok` property is
documented to be `status_code < 400`, which we reproduce verbatim.
-/

namespace Rnaseq

/-- An HTTP response as the `requests` library presents it to the caller:
a numeric status code and a text body (`r.text`). -/
structure HttpResponse where
  status_code : Nat
  text : String
deriving DecidableEq, Repr

/-- `requests.Response.ok`: documented as `True` iff `status_code` is
less than 400 (so 2xx and 3xx both count as "ok"). -/
def HttpResponse.ok (r : HttpResponse) : Bool := r.status_code < 400

/-- An outbound HTTP request as issued by the handler: method, full URL,
and the single `Content-Type` header the code sets. -/
structure HttpRequest where
  method : String
  url : String
  contentType : String
deriving DecidableEq, Repr

/-- The request built by `convert_transcript_id_to_amino_acid_sequence`
(lines 25-27): `requests.get(server + ext, headers={...})` with
`server = "https://rest.ensembl.org"` and
`ext = f"/sequence/id/{ensembl_id}?type=protein"`. -/
def sequence_request (ensembl_id : String) : HttpRequest :=
  let server := "https://rest.ensembl.org"
  let ext := "/sequence/id/" ++ ensembl_id ++ "?type=protein"
  { method := "GET", url := server ++ ext, contentType := "text/plain" }

/-- Embedding of `convert_transcript_id_to_amino_acid_sequence` (lines
9-31): issue the GET; an exception from the transport propagates
(`.error`); otherwise `if not r.ok: return None` and `return r.text`. -/
def convert_transcript_id_to_amino_acid_sequence {ε : Type}
    (http : HttpRequest → Except ε HttpResponse) (ensembl_id : String) :
    Except ε (Option String) :=
  match http (sequence_request ensembl_id) with
  | .error e => .error e
  | .ok r => if !r.ok then .ok none else .ok (some r.text)

/-- Python `ensembl_id.split(".")[0]` (line 77).  The separator is the
single character `'.'`, so the fields are exactly those of splitting on
the predicate `(· == '.')`, empty fields kept; `split` never returns an
empty list, so indexing with `[0]` is the head. -/
def strip_version (s : String) : String :=
  (s.split (fun c => c == '.')).headD ""

/-- The ways the batch loop can abort: `call[0]` on an empty record
raises `IndexError`; an exception raised by `requests.get` inside
`convert_transcript_id_to_amino_acid_sequence` is not caught. -/
inductive BatchError (ε : Type) where
  | indexError
  | transport (e : ε)

/-- Embedding of the loop body of `make_inference` (lines 68-81),
instrumented with the list of outbound requests actually issued (first
component).  For each record: take `call[0]` (aborting on an empty
record), short-circuit to `None` on a falsy identifier, otherwise strip
the version suffix, perform the lookup and append its output.  A
transport exception aborts the whole batch: no reply list is produced
and no later record is looked up. -/
def make_inference {ε : Type} (http : HttpRequest → Except ε HttpResponse) :
    List (List String) →
      List HttpRequest × Except (BatchError ε) (List (Option String))
  | [] => ([], .ok [])
  | call :: calls =>
    match call with
    | [] => ([], .error .indexError)
    | ensembl_id :: _ =>
      if ensembl_id = "" then
        let rest := make_inference http calls
        (rest.1, Except.map (fun rs => none :: rs) rest.2)
      else
        let nid := strip_version ensembl_id
        match convert_transcript_id_to_amino_acid_sequence http nid with
        | .error e => ([sequence_request nid], .error (.transport e))
        | .ok output =>
          let rest := make_inference http calls
          (sequence_request nid :: rest.1,
            Except.map (fun rs => output :: rs) rest.2)

/-- The `replies` list serialized into the response body (line 81),
when the batch ran to completion. -/
def resolve_batch {ε : Type} (http : HttpRequest → Except ε HttpResponse)
    (calls : List (List String)) : Except (BatchError ε) (List (Option String)) :=
  (make_inference http calls).2

/-- The outbound requests issued while processing a batch, in order. -/
def lookup_trace {ε : Type} (http : HttpRequest → Except ε HttpResponse)
    (calls : List (List String)) : List HttpRequest :=
  (make_inference http calls).1

/-- The per-record result the loop computes from a record's first
element: `None` for a falsy identifier, otherwise the lookup's output on
the version-stripped identifier. -/
def item_reply {ε : Type} (http : HttpRequest → Except ε HttpResponse)
    (ensembl_id : String) : Except ε (Option String) :=
  if ensembl_id = "" then .ok none
  else convert_transcript_id_to_amino_acid_sequence http (strip_version ensembl_id)

/-! ### Helper lemmas about the batch loop -/

theorem except_map_eq_ok {ε α β : Type} (f : α → β) (e : Except ε α) (b : β)
    (h : Except.map f e = .ok b) : ∃ a, e = .ok a ∧ b = f a := by
  cases e with
  | error err => simp [Except.map] at h
  | ok a => exact ⟨a, rfl, by simpa [Except.map] using h.symm⟩

/-- A successful run of the loop relates records to replies pointwise:
every record is non-empty and its reply is `item_reply` of its first
element. -/
theorem resolve_ok_forall2 {ε : Type} (http : HttpRequest → Except ε HttpResponse)
    (calls : List (List String)) (replies : List (Option String))
    (h : (make_inference http calls).2 = .ok replies) :
    List.Forall₂ (fun (call : List String) (r : Option String) =>
      call ≠ [] ∧ item_reply http (call.headD "") = .ok r) calls replies := by
  induction calls generalizing replies with
  | nil =>
    simp only [make_inference] at h
    cases h
    exact List.Forall₂.nil
  | cons call calls ih =>
    match call with
    | [] => simp [make_inference] at h
    | ensembl_id :: tl =>
      by_cases hid : ensembl_id = ""
      · simp only [make_inference, hid, if_pos rfl] at h
        obtain ⟨rs, hrs, hb⟩ := except_map_eq_ok _ _ _ h
        subst hb
        refine List.Forall₂.cons ⟨by simp, ?_⟩ (ih rs hrs)
        simp [item_reply, hid]
      · simp only [make_inference, if_neg hid] at h
        cases hc : convert_transcript_id_to_amino_acid_sequence http
            (strip_version ensembl_id) with
        | error e => rw [hc] at h; simp at h
        | ok output =>
          rw [hc] at h
          simp only at h
          obtain ⟨rs, hrs, hb⟩ := except_map_eq_ok _ _ _ h
          subst hb
          refine List.Forall₂.cons ⟨by simp, ?_⟩ (ih rs hrs)
          simpa [item_reply, hid] using hc

/-- When every record is non-empty and the transport raises no
exception, the batch runs to completion. -/
theorem resolve_total {ε : Type} (http : HttpRequest → Except ε HttpResponse)
    (calls : List (List String))
    (hwf : ∀ c ∈ calls, c ≠ [])
    (htot : ∀ q, ∃ r, http q = .ok r) :
    ∃ replies, (make_inference http calls).2 = .ok replies := by
  induction calls with
  | nil => exact ⟨[], rfl⟩
  | cons call calls ih =>
    obtain ⟨rs, hrs⟩ := ih (fun c hc => hwf c (List.mem_cons_of_mem _ hc))
    match call with
    | [] => exact absurd rfl (hwf [] (List.mem_cons_self _ _))
    | ensembl_id :: tl =>
      by_cases hid : ensembl_id = ""
      · exact ⟨none :: rs, by simp [make_inference, hid, hrs, Except.map]⟩
      · obtain ⟨r, hr⟩ := htot (sequence_request (strip_version ensembl_id))
        by_cases hok : r.ok
        · exact ⟨some r.text :: rs, by
            simp [make_inference, convert_transcript_id_to_amino_acid_sequence,
              hid, hr, hok, hrs, Except.map]⟩
        · exact ⟨none :: rs, by
            simp [make_inference, convert_transcript_id_to_amino_acid_sequence,
              hid, hr, hok, hrs, Except.map]⟩

/-- A transport oracle that always answers 200 with body "SEQ";
used to instantiate theorems at concrete inputs. -/
def http_const_ok : HttpRequest → Except Unit HttpResponse :=
  fun _ => .ok { status_code := 200, text := "SEQ" }

/-- C1: for every well-formed batch (each record has a first element)
resolved over an exception-free transport, `make_inference` returns a
replies list whose length equals the length of `calls`, and `replies[i]`
is the result computed from `calls[i][0]` for every index i. -/
theorem make_inference_length_and_positional {ε : Type}
    (http : HttpRequest → Except ε HttpResponse)
    (calls : List (List String))
    (hwf : ∀ c ∈ calls, c ≠ [])
    (htot : ∀ q, ∃ r, http q = Except.ok r) :
    ∃ replies, resolve_batch http calls = .ok replies ∧
      replies.length = calls.length ∧
      ∀ i (h1 : i < calls.length) (h2 : i < replies.length),
        item_reply http ((calls.get ⟨i, h1⟩).headD "") =
          .ok (replies.get ⟨i, h2⟩) := by
  obtain ⟨replies, hr⟩ := resolve_total http calls hwf htot
  have hf := resolve_ok_forall2 http calls replies hr
  rw [List.forall₂_iff_get] at hf
  exact ⟨replies, hr, hf.1.symm, fun i h1 h2 => (hf.2 i h1 h2).2⟩

theorem make_inference_length_and_positional_witness :
    ∃ replies,
      resolve_batch http_const_ok [["ENST00000398417.1"], [""]] = .ok replies ∧
      replies.length = 2 ∧
      ∀ i (h1 : i < 2) (h2 : i < replies.length),
        item_reply http_const_ok
          ((([["ENST00000398417.1"], [""]] :
            List (List String)).get ⟨i, h1⟩).headD "") =
          .ok (replies.get ⟨i, h2⟩) := by
  simpa using make_inference_length_and_positional http_const_ok
    [["ENST00000398417.1"], [""]] (by simp)
    (fun _ => ⟨{ status_code := 200, text := "SEQ" }, rfl⟩)

/-- C2: a record whose first element is the empty string yields `None`
at its position; its position contributes no outbound request (dropping
such a record leaves the request trace unchanged); and a batch made only
of empty identifiers yields an all-`None` reply list of the same length
with an empty request trace. -/
theorem empty_identifier_short_circuit {ε : Type}
    (http : HttpRequest → Except ε HttpResponse) :
    (∀ calls replies, resolve_batch http calls = .ok replies →
      ∀ i (h1 : i < calls.length) (h2 : i < replies.length),
        (calls.get ⟨i, h1⟩).headD "" = "" → replies.get ⟨i, h2⟩ = none) ∧
    (∀ calls1 t calls2,
      lookup_trace http (calls1 ++ (("" : String) :: t) :: calls2) =
        lookup_trace http (calls1 ++ calls2)) ∧
    (∀ calls, (∀ c ∈ calls, ∃ t, c = "" :: t) →
      make_inference http calls = ([], .ok (List.replicate calls.length none))) := by
  refine ⟨?_, ?_, ?_⟩
  · intro calls replies h i h1 h2 hempty
    have hf := resolve_ok_forall2 http calls replies h
    rw [List.forall₂_iff_get] at hf
    have := (hf.2 i h1 h2).2
    rw [hempty] at this
    simpa [item_reply] using this.symm
  · intro calls1 t calls2
    induction calls1 with
    | nil => simp [lookup_trace, make_inference]
    | cons c calls1 ih =>
      match c with
      | [] => simp [lookup_trace, make_inference]
      | x :: xs =>
        by_cases hx : x = ""
        · simpa [lookup_trace, make_inference, hx] using ih
        · simp only [lookup_trace, List.cons_append, make_inference, if_neg hx]
          cases hc : convert_transcript_id_to_amino_acid_sequence http
              (strip_version x) with
          | error e => simp
          | ok output => simpa [lookup_trace] using ih
  · intro calls hall
    induction calls with
    | nil => rfl
    | cons c calls ih =>
      obtain ⟨t, rfl⟩ := hall c (List.mem_cons_self _ _)
      have := ih (fun c hc => hall c (List.mem_cons_of_mem _ hc))
      simp [make_inference, this, Except.map, List.replicate]

theorem empty_identifier_short_circuit_witness :
    make_inference http_const_ok [[""], ["", "x"]] =
      ([], .ok [none, none]) := by
  simpa using (empty_identifier_short_circuit http_const_ok).2.2
    [[""], ["", "x"]] (by simp)

/-! ### Normalization: `split(".")[0]` takes the prefix before the first dot -/

theorem splitOnP_headD_takeWhile {α : Type} (p : α → Bool) (l : List α) :
    (l.splitOnP p).headD [] = l.takeWhile (fun a => !p a) := by
  induction l with
  | nil => simp [List.splitOnP_nil]
  | cons a l ih =>
    rw [List.splitOnP_cons]
    by_cases h : p a
    · simp [h]
    · have hb : p a = false := by simpa using h
      cases hs : l.splitOnP p with
      | nil => exact absurd hs (List.splitOnP_ne_nil _ _)
      | cons b t =>
        rw [hs] at ih
        simp only [List.headD_cons] at ih
        simp [hs, hb, List.modifyHead, List.takeWhile_cons, ih]

theorem strip_version_eq_takeWhile (s : String) :
    strip_version s = ⟨s.data.takeWhile (fun c => c ≠ '.')⟩ := by
  have hp : (fun c : Char => !(c == '.')) = (fun c : Char => decide (c ≠ '.')) := by
    funext c; by_cases h : c = '.' <;> simp [h]
  unfold strip_version
  rw [String.split_of_valid]
  cases hs : List.splitOnP (fun c : Char => c == '.') s.data with
  | nil => exact absurd hs (List.splitOnP_ne_nil _ _)
  | cons a t =>
    have h1 := splitOnP_headD_takeWhile (fun c : Char => c == '.') s.data
    rw [hs, List.headD_cons] at h1
    rw [List.map_cons, List.headD_cons, h1, hp]

/-- C3: normalization returns the prefix of the identifier before its
first '.' character; in particular "ENST00000398417.1" normalizes to
"ENST00000398417", "ENST00000257770.2" to "ENST00000257770", and an
identifier containing no '.' is returned unchanged. -/
theorem strip_version_prefix_before_dot :
    (∀ s : String, s ≠ "" →
      strip_version s = ⟨s.data.takeWhile (fun c => c ≠ '.')⟩) ∧
    strip_version "ENST00000398417.1" = "ENST00000398417" ∧
    strip_version "ENST00000257770.2" = "ENST00000257770" ∧
    (∀ s : String, s ≠ "" → (∀ c ∈ s.data, c ≠ '.') → strip_version s = s) := by
  refine ⟨fun s _ => strip_version_eq_takeWhile s,
    by rw [strip_version_eq_takeWhile]; decide,
    by rw [strip_version_eq_takeWhile]; decide, ?_⟩
  intro s _ hnd
  rw [strip_version_eq_takeWhile s, List.takeWhile_eq_self_iff.mpr (by simpa using hnd)]

theorem strip_version_prefix_before_dot_witness :
    strip_version "ENSTX.9.7" = ⟨"ENSTX.9.7".data.takeWhile (fun c => c ≠ '.')⟩ :=
  strip_version_prefix_before_dot.1 "ENSTX.9.7" (by decide)

/-- C9: an identifier that begins with '.' is truthy, so the emptiness
check does not fire; normalization yields the empty string, and a lookup
is still issued, to the bare URL
"https://rest.ensembl.org/sequence/id/?type=protein", instead of
short-circuiting to the absent marker. -/
theorem dot_prefixed_identifier_still_looked_up {ε : Type}
    (http : HttpRequest → Except ε HttpResponse)
    (ident : String) (t : List Char) (rest : List String)
    (hid : ident.data = '.' :: t) :
    ident ≠ "" ∧ strip_version ident = "" ∧
    lookup_trace http [ident :: rest] =
      [{ method := "GET",
         url := "https://rest.ensembl.org/sequence/id/?type=protein",
         contentType := "text/plain" }] := by
  have hne : ident ≠ "" := by
    intro h; rw [h] at hid; exact List.noConfusion hid
  have hsv : strip_version ident = "" := by
    rw [strip_version_eq_takeWhile, hid]
    simp [List.takeWhile_cons]
  refine ⟨hne, hsv, ?_⟩
  simp only [lookup_trace, make_inference, if_neg hne, hsv]
  cases hc : convert_transcript_id_to_amino_acid_sequence http "" with
  | error e => rfl
  | ok output => rfl

theorem dot_prefixed_identifier_still_looked_up_witness :
    (".1" : String) ≠ "" ∧ strip_version ".1" = "" ∧
    lookup_trace http_const_ok [[".1"]] =
      [{ method := "GET",
         url := "https://rest.ensembl.org/sequence/id/?type=protein",
         contentType := "text/plain" }] :=
  dot_prefixed_identifier_still_looked_up http_const_ok ".1" ['1'] [] rfl

/-! ### Status handling, transport faults, and the request trace -/

/-- A transport oracle answering 301 with body "MOVED"; 301 is not a
2xx status yet `requests.Response.ok` holds for it. -/
def http301 : HttpRequest → Except Unit HttpResponse :=
  fun _ => .ok { status_code := 301, text := "MOVED" }

/-- C4 counterexample: a 301 response is not a 2xx success, yet the
code returns its body verbatim instead of the absent marker, because
`requests.Response.ok` is `status_code < 400` rather than "2xx". -/
theorem status_3xx_counterexample :
    ¬ (200 ≤ 301 ∧ 301 < 300) ∧
    convert_transcript_id_to_amino_acid_sequence http301 "ENST00000398417" =
      .ok (some "MOVED") :=
  ⟨by omega, rfl⟩

/-- C4 (amended): the per-item result is the absent marker exactly when
the response status is at least 400 — `requests`' success predicate, so
3xx bodies are also returned verbatim — and an "ok = false" response is
`.ok none`, never an error; over a fault-free transport a well-formed
batch always runs to completion. -/
theorem convert_status_threshold {ε : Type}
    (http : HttpRequest → Except ε HttpResponse) :
    (∀ (ensembl_id : String) (r : HttpResponse),
      http (sequence_request ensembl_id) = .ok r →
      convert_transcript_id_to_amino_acid_sequence http ensembl_id =
        .ok (if 400 ≤ r.status_code then none else some r.text)) ∧
    (∀ calls, (∀ c ∈ calls, c ≠ []) → (∀ q, ∃ r, http q = .ok r) →
      ∃ replies, (make_inference http calls).2 = .ok replies) := by
  constructor
  · intro ensembl_id r hr
    simp only [convert_transcript_id_to_amino_acid_sequence, hr]
    by_cases h4 : 400 ≤ r.status_code
    · have hok : r.ok = false := by
        simp only [HttpResponse.ok, decide_eq_false_iff_not]; omega
      simp [hok, h4]
    · have hok : r.ok = true := by
        simp only [HttpResponse.ok, decide_eq_true_eq]; omega
      simp [hok, h4]
  · exact fun calls hwf htot => resolve_total http calls hwf htot

theorem convert_status_threshold_witness :
    convert_transcript_id_to_amino_acid_sequence http301 "X" =
      .ok (if 400 ≤ (301 : Nat) then none else some "MOVED") :=
  (convert_status_threshold http301).1 "X"
    { status_code := 301, text := "MOVED" } rfl

/-- Splitting a batch after a successfully processed prefix: the trace
concatenates and the replies of the suffix are prepended with the
prefix's replies. -/
theorem make_inference_append_ok {ε : Type}
    (http : HttpRequest → Except ε HttpResponse)
    (calls1 rest : List (List String)) (rs1 : List (Option String))
    (h1 : (make_inference http calls1).2 = .ok rs1) :
    (make_inference http (calls1 ++ rest)).1 =
      (make_inference http calls1).1 ++ (make_inference http rest).1 ∧
    (make_inference http (calls1 ++ rest)).2 =
      Except.map (fun rs => rs1 ++ rs) (make_inference http rest).2 := by
  induction calls1 generalizing rs1 with
  | nil =>
    simp only [make_inference] at h1
    cases h1
    constructor
    · simp [make_inference]
    · cases hrest : (make_inference http rest).2 <;>
        simp [make_inference, Except.map, hrest]
  | cons c calls1 ih =>
    match c with
    | [] => simp [make_inference] at h1
    | x :: xs =>
      by_cases hx : x = ""
      · subst hx
        have e1 : ∀ L, make_inference http (("" :: xs) :: L) =
            ((make_inference http L).1,
              Except.map (fun rs => none :: rs) (make_inference http L).2) :=
          fun L => by simp [make_inference]
        rw [e1] at h1
        obtain ⟨rs, hrs, rfl⟩ := except_map_eq_ok _ _ _ h1
        obtain ⟨ht, hr⟩ := ih rs hrs
        rw [List.cons_append, e1, e1 calls1]
        refine ⟨ht, ?_⟩
        rw [hr]
        cases hrest : (make_inference http rest).2 <;> simp [Except.map, hrest]
      · cases hc : convert_transcript_id_to_amino_acid_sequence http
            (strip_version x) with
        | error e2 =>
          have e2eq : ∀ L, make_inference http ((x :: xs) :: L) =
              ([sequence_request (strip_version x)],
                .error (.transport e2)) :=
            fun L => by simp [make_inference, hx, hc]
          rw [e2eq] at h1
          simp at h1
        | ok output =>
          have e3 : ∀ L, make_inference http ((x :: xs) :: L) =
              (sequence_request (strip_version x) :: (make_inference http L).1,
                Except.map (fun rs => output :: rs)
                  (make_inference http L).2) :=
            fun L => by simp [make_inference, hx, hc]
          rw [e3] at h1
          obtain ⟨rs, hrs, rfl⟩ := except_map_eq_ok _ _ _ h1
          obtain ⟨ht, hr⟩ := ih rs hrs
          rw [List.cons_append, e3, e3 calls1]
          constructor
          · simp [ht]
          · rw [hr]
            cases hrest : (make_inference http rest).2 <;>
              simp [Except.map, hrest]

/-- C5: a transport-level exception while resolving any position
propagates: the batch aborts with a transport error, no replies list is
produced, and no position after the faulting one is looked up — the
request trace ends at the faulting identifier's request. -/
theorem transport_fault_aborts_batch {ε : Type}
    (http : HttpRequest → Except ε HttpResponse)
    (calls1 calls2 : List (List String)) (ident : String) (tl : List String)
    (e : ε) (rs1 : List (Option String))
    (h1 : resolve_batch http calls1 = .ok rs1)
    (hne : ident ≠ "")
    (he : http (sequence_request (strip_version ident)) = .error e) :
    resolve_batch http (calls1 ++ (ident :: tl) :: calls2) =
      .error (.transport e) ∧
    lookup_trace http (calls1 ++ (ident :: tl) :: calls2) =
      lookup_trace http calls1 ++ [sequence_request (strip_version ident)] := by
  have hhead : make_inference http ((ident :: tl) :: calls2) =
      ([sequence_request (strip_version ident)], .error (.transport e)) := by
    simp [make_inference, hne, convert_transcript_id_to_amino_acid_sequence, he]
  obtain ⟨ht, hr⟩ :=
    make_inference_append_ok http calls1 ((ident :: tl) :: calls2) rs1 h1
  constructor
  · simp only [resolve_batch]
    rw [hr, hhead]
    rfl
  · simp only [lookup_trace]
    rw [ht, hhead]

/-- A transport that raises (an exception) on the request for "BAD" and
answers 200 otherwise. -/
def http_fail_bad : HttpRequest → Except Unit HttpResponse :=
  fun q => if q = sequence_request "BAD" then .error ()
    else .ok { status_code := 200, text := "SEQ" }

theorem transport_fault_aborts_batch_witness :
    resolve_batch http_fail_bad [[""], ["BAD"], ["ENST2"]] =
      .error (.transport ()) ∧
    lookup_trace http_fail_bad [[""], ["BAD"], ["ENST2"]] =
      lookup_trace http_fail_bad [[""]] ++
        [sequence_request (strip_version "BAD")] := by
  have hsv : strip_version "BAD" = "BAD" := by
    rw [strip_version_eq_takeWhile]; decide
  exact transport_fault_aborts_batch http_fail_bad [[""]] [["ENST2"]]
    "BAD" [] () [none] rfl (by decide) (by rw [hsv]; rfl)

theorem sequence_request_eq (ensembl_id : String) :
    sequence_request ensembl_id =
      { method := "GET",
        url := "https://rest.ensembl.org/sequence/id/" ++ ensembl_id ++
          "?type=protein",
        contentType := "text/plain" } := by
  have h : ("https://rest.ensembl.org" : String) ++ "/sequence/id/" =
      "https://rest.ensembl.org/sequence/id/" := by decide
  simp only [sequence_request]
  rw [← String.append_assoc, ← String.append_assoc, h]

/-- C6: over a fault-free transport, the request trace of a well-formed
batch is exactly one GET per non-empty identifier, in input order, each
to "https://rest.ensembl.org/sequence/id/" ++ normalized identifier ++
"?type=protein" with header Content-Type "text/plain"; duplicate
identifiers each produce their own request (no caching). -/
theorem lookup_trace_one_get_per_nonempty {ε : Type}
    (http : HttpRequest → Except ε HttpResponse)
    (calls : List (List String))
    (hwf : ∀ c ∈ calls, c ≠ [])
    (htot : ∀ q, ∃ r, http q = .ok r) :
    lookup_trace http calls =
      ((calls.map (fun c => c.headD "")).filter (fun s => s ≠ "")).map
        (fun s =>
          { method := "GET",
            url := "https://rest.ensembl.org/sequence/id/" ++
              strip_version s ++ "?type=protein",
            contentType := "text/plain" }) := by
  induction calls with
  | nil => rfl
  | cons c calls ih =>
    have ihl := ih (fun d hd => hwf d (List.mem_cons_of_mem _ hd))
    match c with
    | [] => exact absurd rfl (hwf [] (List.mem_cons_self _ _))
    | x :: xs =>
      by_cases hx : x = ""
      · subst hx
        simpa [lookup_trace, make_inference] using ihl
      · obtain ⟨r, hr⟩ := htot (sequence_request (strip_version x))
        have hc : convert_transcript_id_to_amino_acid_sequence http
            (strip_version x) = .ok (if !r.ok then none else some r.text) := by
          simp only [convert_transcript_id_to_amino_acid_sequence, hr]
          split <;> simp_all
        simp only [lookup_trace, make_inference, if_neg hx, hc,
          List.map_cons, List.headD_cons, List.filter_cons,
          decide_not]
        rw [if_pos (by simpa using hx)]
        rw [List.map_cons]
        refine congrArg₂ _ (sequence_request_eq _) ?_
        simpa [lookup_trace] using ihl

theorem lookup_trace_one_get_per_nonempty_witness :
    lookup_trace http_const_ok [["A.1"], [""], ["A.1"]] =
      ((([["A.1"], [""], ["A.1"]] : List (List String)).map
          (fun c => c.headD "")).filter (fun s => s ≠ "")).map
        (fun s =>
          { method := "GET",
            url := "https://rest.ensembl.org/sequence/id/" ++
              strip_version s ++ "?type=protein",
            contentType := "text/plain" }) :=
  lookup_trace_one_get_per_nonempty http_const_ok [["A.1"], [""], ["A.1"]]
    (by simp) (fun _ => ⟨{ status_code := 200, text := "SEQ" }, rfl⟩)

/-- Successive invocations of the handler in one process: each batch is
resolved by the same pure function; no state is carried between them. -/
def run_session {ε : Type} (http : HttpRequest → Except ε HttpResponse)
    (batches : List (List (List String))) :
    List (List HttpRequest × Except (BatchError ε) (List (Option String))) :=
  batches.map (make_inference http)

/-- C7: make_inference is deterministic and stateless across
invocations: in any session, two positions holding the same batch
produce identical outputs (replies and trace alike). -/
theorem make_inference_stateless_idempotent {ε : Type}
    (http : HttpRequest → Except ε HttpResponse)
    (batches : List (List (List String))) (i j : Nat)
    (b : List (List String))
    (hi : batches[i]? = some b) (hj : batches[j]? = some b) :
    (run_session http batches)[i]? = (run_session http batches)[j]? := by
  simp [run_session, List.getElem?_map, hi, hj]

theorem make_inference_stateless_idempotent_witness :
    (run_session http_const_ok [[["ENST1"]], [[""]], [["ENST1"]]])[0]? =
      (run_session http_const_ok [[["ENST1"]], [[""]], [["ENST1"]]])[2]? :=
  make_inference_stateless_idempotent http_const_ok
    [[["ENST1"]], [[""]], [["ENST1"]]] 0 2 [["ENST1"]] rfl rfl

/-! ### Embedding of src/load_rsem_results_into_bq.py -/

/-- The fields of the completed warehouse load job the script inspects
after `job.result()`: `result.job_id`, `result.state`, and
`result.error_result` (falsy — here `none` — when the load succeeded). -/
structure LoadJobResult where
  job_id : String
  state : String
  error_result : Option String
deriving DecidableEq, Repr

/-- Lines 74-77: the one-line summary `load_gene_results` prints to
standard output once the load job has completed. -/
def load_gene_results_report (result : LoadJobResult) : String :=
  match result.error_result with
  | none =>
    "Job \"" ++ result.job_id ++ "\" loaded without error. Current status is " ++
      result.state ++ "."
  | some err =>
    "Error occurred while loading job \"" ++ result.job_id ++ "\":\n" ++ err ++
      "\nCurrent status is " ++ result.state ++ "."

/-- Lines 143-146: the summary `load_isoform_results` prints;
textually identical to the gene-level one. -/
def load_isoform_results_report (result : LoadJobResult) : String :=
  match result.error_result with
  | none =>
    "Job \"" ++ result.job_id ++ "\" loaded without error. Current status is " ++
      result.state ++ "."
  | some err =>
    "Error occurred while loading job \"" ++ result.job_id ++ "\":\n" ++ err ++
      "\nCurrent status is " ++ result.state ++ "."

/-- The script never calls sys.exit and raises nothing after the job
completes — both branches only print — so the process exit status is 0
whatever the job outcome was. -/
def load_script_exit_code (_result : LoadJobResult) : Nat := 0

/-- C8: both loaders print a one-line summary: on success the line
contains the job identifier and the job state; on failure it contains
the job identifier, the error detail and the job state; the isoform
loader prints the same line as the gene loader; and in neither case is
a non-zero exit code set. -/
theorem load_report_contents_and_exit_code (result : LoadJobResult) :
    (result.error_result = none →
      result.job_id.data <:+: (load_gene_results_report result).data ∧
      result.state.data <:+: (load_gene_results_report result).data ∧
      load_gene_results_report result = load_isoform_results_report result) ∧
    (∀ err, result.error_result = some err →
      result.job_id.data <:+: (load_gene_results_report result).data ∧
      err.data <:+: (load_gene_results_report result).data ∧
      result.state.data <:+: (load_gene_results_report result).data ∧
      load_gene_results_report result = load_isoform_results_report result) ∧
    load_script_exit_code result = 0 := by
  refine ⟨?_, ?_, rfl⟩
  · intro h
    simp only [load_gene_results_report, load_isoform_results_report, h]
    refine ⟨⟨"Job \"".data,
      ("\" loaded without error. Current status is " ++ result.state ++ ".").data,
      by simp [String.data_append, List.append_assoc]⟩,
      ⟨("Job \"" ++ result.job_id ++
          "\" loaded without error. Current status is ").data,
        ("." : String).data,
        by simp [String.data_append, List.append_assoc]⟩, trivial⟩
  · intro err h
    simp only [load_gene_results_report, load_isoform_results_report, h]
    refine ⟨⟨"Error occurred while loading job \"".data,
      ("\":\n" ++ err ++ "\nCurrent status is " ++ result.state ++ ".").data,
      by simp [String.data_append, List.append_assoc]⟩,
      ⟨("Error occurred while loading job \"" ++ result.job_id ++ "\":\n").data,
        ("\nCurrent status is " ++ result.state ++ ".").data,
        by simp [String.data_append, List.append_assoc]⟩,
      ⟨("Error occurred while loading job \"" ++ result.job_id ++ "\":\n" ++
          err ++ "\nCurrent status is ").data,
        ("." : String).data,
        by simp [String.data_append, List.append_assoc]⟩, trivial⟩

theorem load_report_contents_and_exit_code_witness :
    ("boom" : String).data <:+:
      (load_gene_results_report
        { job_id := "job17", state := "DONE", error_result := some "boom" }).data :=
  ((load_report_contents_and_exit_code
    { job_id := "job17", state := "DONE", error_result := some "boom" }).2.1
    "boom" rfl).2.1

/-- Python's builtin `bool` applied to a `str`: falsy exactly on the
empty string, truthy on every other string — including "False". -/
def python_bool_of_string (s : String) : Bool := s ≠ ""

/-- Lines 183-189: argparse declares `--verbose` with `type=bool` and
`default=False`.  argparse applies the `type` callable to the raw
command-line string when the flag is given, and uses the default when
it is omitted. -/
def parse_verbose_flag : Option String → Bool
  | none => false
  | some v => python_bool_of_string v

/-- C10: any non-empty string given to `--verbose` — including the
string "False" — parses to `True`, because `bool` of a non-empty string
is `True`; the parsed value is `False` only when the flag is omitted or
given the empty string. -/
theorem verbose_flag_nonempty_string_true :
    (∀ s : String, s ≠ "" → parse_verbose_flag (some s) = true) ∧
    parse_verbose_flag (some "False") = true ∧
    parse_verbose_flag none = false ∧
    parse_verbose_flag (some "") = false := by
  refine ⟨?_, by decide, rfl, by decide⟩
  intro s hs
  simpa [parse_verbose_flag, python_bool_of_string] using hs

theorem verbose_flag_nonempty_string_true_witness :
    parse_verbose_flag (some "0") = true :=
  verbose_flag_nonempty_string_true.1 "0" (by decide)

end Rnaseq
